import Mathlib

/-! Verification of the tahir0900/expense_backend Django API: the data model
(api/models.py), the write-path sign normalization of transaction amounts
(api/serializers.py, TransactionSerializer.validate), the per-user
authorization scoping of the CRUD views (api/views.py), the dashboard
aggregation (DashboardSummaryView.get) and the analytics aggregation
(AnalyticsOverviewView.get).

Modelling conventions:
- Amounts are stored in a DecimalField with two decimal places, so they are
  exact; we model them as integers counted in cents (subunits).  Quantities
  produced by division (average daily spending, top-category percentage,
  savings rate) are exact rationals.
- A Python date is modelled by its proleptic Gregorian ordinal together with
  its month abbreviation (strftime "%b").  Django date lookups date__gte and
  date__lte compare dates chronologically, i.e. by ordinal, and the date
  fromordinal n has ordinal n.
- A queryset is a list of rows.  SQL Sum aggregation yields none on an empty
  row set, and the pattern aggregate(...) or Decimal zero is Option.getD 0.
- Rows carry the id of their owning auth user as a plain natural number.
-/

namespace ExpenseBackend

/-- Transaction.TYPE_CHOICES / Category.TYPE_CHOICES in api/models.py. -/
inductive TxType where
  | income
  | expense
deriving DecidableEq

/-- A Python datetime.date: its toordinal value and its strftime "%b" label. -/
structure PyDate where
  toordinal : Int
  monthAbbrev : String
deriving DecidableEq

/-- Category model (api/models.py): user FK, name, color, icon, type, budget. -/
structure Category where
  id : Nat
  user : Nat
  name : String
  color : String
  icon : String
  type : TxType
  budget : Int
deriving DecidableEq

/-- Transaction model (api/models.py).  The nullable category FK is modelled
as the joined category row itself, which is what the aggregation queries
(values of category__name) read through. -/
structure Transaction where
  id : Nat
  user : Nat
  category : Option Category
  description : String
  amount : Int
  type : TxType
  date : PyDate
deriving DecidableEq

/-- TransactionSerializer.validate (api/serializers.py lines 69-81): two
sequential if-statements over the incoming attrs; income with a negative
amount is replaced by abs(amount), expense with a positive amount by
-abs(amount).  Both tests read the original amount. -/
def normalizeAmount (ttype : TxType) (amount : Int) : Int :=
  let afterIncomeFix := if ttype = TxType.income ∧ amount < 0 then |amount| else amount
  if ttype = TxType.expense ∧ 0 < amount then -|amount| else afterIncomeFix

/-- The writable fields of TransactionSerializer (create or full update
payload). -/
structure TransactionInput where
  description : String
  amount : Int
  type : TxType
  date : PyDate
  category : Option Category
deriving DecidableEq

/-- The serializer validate step applied to a write payload. -/
def validateInput (inp : TransactionInput) : TransactionInput :=
  { inp with amount := normalizeAmount inp.type inp.amount }

/-- The read shape of TransactionSerializer: fields id, description, amount,
category (the FK id), category_name (read through the FK, absent when the
category is null), type, date. -/
structure SerializedTransaction where
  id : Nat
  description : String
  amount : Int
  category : Option Nat
  category_name : Option String
  type : TxType
  date : PyDate
deriving DecidableEq

/-- Serialization of one Transaction row by TransactionSerializer. -/
def serializeTransaction (t : Transaction) : SerializedTransaction :=
  { id := t.id
  , description := t.description
  , amount := t.amount
  , category := t.category.map (fun c => c.id)
  , category_name := t.category.map (fun c => c.name)
  , type := t.type
  , date := t.date }

/-- The sign/type consistency invariant of stored transactions (spec section
3): expense amounts non-positive, income amounts non-negative. -/
def SignOK (t : Transaction) : Prop :=
  (t.type = TxType.expense → t.amount ≤ 0) ∧ (t.type = TxType.income → 0 ≤ t.amount)

instance (t : Transaction) : Decidable (SignOK t) := by
  unfold SignOK
  infer_instance

/-- Insertion step of the sort used to model SQL order_by. -/
def insertBy {α : Type} (le : α → α → Bool) (a : α) : List α → List α
  | [] => [a]
  | b :: bs => if le a b then a :: b :: bs else b :: insertBy le a bs

/-- Sorting a queryset by a boolean relation (models SQL order_by: the result
is a permutation of the rows, sorted by the relation). -/
def sortBy {α : Type} (le : α → α → Bool) : List α → List α
  | [] => []
  | a :: as => insertBy le a (sortBy le as)

/-- CategoryListCreateView.get_queryset / CategoryDetailView.get_queryset:
Category.objects.filter(user=request.user). -/
def categoryQueryset (u : Nat) (db : List Category) : List Category :=
  db.filter (fun c => decide (c.user = u))

/-- TransactionListCreateView.get_queryset / TransactionDetailView
.get_queryset base: Transaction.objects.filter(user=request.user). -/
def transactionQueryset (u : Nat) (db : List Transaction) : List Transaction :=
  db.filter (fun t => decide (t.user = u))

/-- order_by name for the category list endpoint. -/
def categoryNameLE (a b : Category) : Bool := decide (a.name ≤ b.name)

/-- GET /categories response rows: the owner-scoped queryset ordered by name. -/
def categoryList (u : Nat) (db : List Category) : List Category :=
  sortBy categoryNameLE (categoryQueryset u db)

/-- order_by(-date, -id): a may precede b when (date, id) of b is
lexicographically at most that of a. -/
def recentLE (a b : Transaction) : Bool :=
  decide (b.date.toordinal < a.date.toordinal ∨
    (b.date.toordinal = a.date.toordinal ∧ b.id ≤ a.id))

/-- Optional query parameters of the transaction list endpoint.  ttype is
some only for the values income/expense (any other value of the raw type
parameter applies no filter, exactly like the code's membership test). -/
structure TxnListParams where
  ttype : Option TxType
  categoryId : Option Nat
  search : Option String

/-- ASCII lowercasing of one character (model of case folding used by the
case-insensitive icontains lookup). -/
def asciiLowerChar (c : Char) : Char :=
  if 65 ≤ c.toNat ∧ c.toNat ≤ 90 then Char.ofNat (c.toNat + 32) else c

/-- description__icontains=search: case-insensitive substring match. -/
def icontains (haystack needle : String) : Bool :=
  decide (List.IsInfix (needle.data.map asciiLowerChar) (haystack.data.map asciiLowerChar))

/-- GET /transactions rows (TransactionListCreateView.get_queryset): the
owner-scoped queryset ordered by -date then -id, then the optional type,
category and search filters in the order the code applies them. -/
def transactionList (u : Nat) (db : List Transaction) (p : TxnListParams) : List Transaction :=
  let qs0 := sortBy recentLE (transactionQueryset u db)
  let qs1 := match p.ttype with
    | some tt => qs0.filter (fun t => decide (t.type = tt))
    | none => qs0
  let qs2 := match p.categoryId with
    | some cid => qs1.filter (fun t => decide (t.category.map (fun c => c.id) = some cid))
    | none => qs1
  match p.search with
  | some s => qs2.filter (fun t => icontains t.description s)
  | none => qs2

/-- Outcome of a detail-route operation: 200 with a body, 404, or 403.  The
403 constructor exists so that we can state that the views never produce it. -/
inductive DetailOutcome (α : Type) where
  | ok (value : α)
  | notFound
  | forbidden
deriving DecidableEq

/-- DRF get_object for CategoryDetailView: look the pk up inside the
owner-scoped queryset; a miss is a 404. -/
def categoryGetObject (u : Nat) (db : List Category) (pk : Nat) : DetailOutcome Category :=
  match (categoryQueryset u db).find? (fun c => decide (c.id = pk)) with
  | some c => DetailOutcome.ok c
  | none => DetailOutcome.notFound

/-- DRF get_object for TransactionDetailView. -/
def transactionGetObject (u : Nat) (db : List Transaction) (pk : Nat) : DetailOutcome Transaction :=
  match (transactionQueryset u db).find? (fun t => decide (t.id = pk)) with
  | some t => DetailOutcome.ok t
  | none => DetailOutcome.notFound

/-- GET /transactions/pk. -/
def transactionRetrieve (u : Nat) (db : List Transaction) (pk : Nat) :
    DetailOutcome SerializedTransaction :=
  match transactionGetObject u db pk with
  | DetailOutcome.ok t => DetailOutcome.ok (serializeTransaction t)
  | DetailOutcome.notFound => DetailOutcome.notFound
  | DetailOutcome.forbidden => DetailOutcome.forbidden

/-- GET /categories/pk. -/
def categoryRetrieve (u : Nat) (db : List Category) (pk : Nat) : DetailOutcome Category :=
  categoryGetObject u db pk

/-- Row constructed by perform_create(serializer.save(user=request.user)). -/
def mkTransaction (newId u : Nat) (inp : TransactionInput) : Transaction :=
  { id := newId
  , user := u
  , category := inp.category
  , description := inp.description
  , amount := inp.amount
  , type := inp.type
  , date := inp.date }

/-- POST /transactions: append a new row built from the validated payload,
owned by the requesting user. -/
def transactionCreate (u : Nat) (db : List Transaction) (newId : Nat) (inp : TransactionInput) :
    List Transaction :=
  db ++ [mkTransaction newId u (validateInput inp)]

/-- Overwrite the writable serializer fields of a row (id and owner are
read-only / set by the view). -/
def applyInput (t : Transaction) (inp : TransactionInput) : Transaction :=
  { t with category := inp.category
         , description := inp.description
         , amount := inp.amount
         , type := inp.type
         , date := inp.date }

/-- PUT /transactions/pk: get_object on the scoped queryset, then save the
validated payload onto the found row. -/
def transactionUpdate (u : Nat) (db : List Transaction) (pk : Nat) (inp : TransactionInput) :
    DetailOutcome SerializedTransaction × List Transaction :=
  match transactionGetObject u db pk with
  | DetailOutcome.ok t =>
      let t2 := applyInput t (validateInput inp)
      (DetailOutcome.ok (serializeTransaction t2), db.map (fun r => if r = t then t2 else r))
  | DetailOutcome.notFound => (DetailOutcome.notFound, db)
  | DetailOutcome.forbidden => (DetailOutcome.forbidden, db)

/-- A PATCH partial-update payload of TransactionSerializer: only the
supplied fields are present in the attrs dict that validate() receives. -/
structure PartialTransactionInput where
  description : Option String
  amount : Option Int
  type : Option TxType
  date : Option PyDate
  category : Option (Option Category)
deriving DecidableEq

/-- TransactionSerializer.validate on a partial (PATCH) payload: both sign
fixes test attrs.get('type'), so when the payload carries no type field
neither fix fires and a supplied amount passes through untouched.  (A
payload carrying a type but no amount would make the code compare None
against 0 and raise; that case never stores a row and is left as the
identity here.) -/
def validatePartial (attrs : PartialTransactionInput) : PartialTransactionInput :=
  match attrs.type, attrs.amount with
  | some t, some a => { attrs with amount := some (normalizeAmount t a) }
  | _, _ => attrs

/-- serializer.update on a PATCH: overwrite exactly the supplied fields of
the found row, keeping the others. -/
def applyPartial (t : Transaction) (attrs : PartialTransactionInput) : Transaction :=
  { t with description := attrs.description.getD t.description
         , amount := attrs.amount.getD t.amount
         , type := attrs.type.getD t.type
         , date := attrs.date.getD t.date
         , category := attrs.category.getD t.category }

/-- PATCH /transactions/pk: get_object on the scoped queryset, then save the
validated partial payload onto the found row. -/
def transactionPartialUpdate (u : Nat) (db : List Transaction) (pk : Nat)
    (attrs : PartialTransactionInput) :
    DetailOutcome SerializedTransaction × List Transaction :=
  match transactionGetObject u db pk with
  | DetailOutcome.ok t =>
      let t2 := applyPartial t (validatePartial attrs)
      (DetailOutcome.ok (serializeTransaction t2), db.map (fun r => if r = t then t2 else r))
  | DetailOutcome.notFound => (DetailOutcome.notFound, db)
  | DetailOutcome.forbidden => (DetailOutcome.forbidden, db)

/-- DELETE /transactions/pk: get_object on the scoped queryset, then delete
the found row. -/
def transactionDestroy (u : Nat) (db : List Transaction) (pk : Nat) :
    DetailOutcome Unit × List Transaction :=
  match transactionGetObject u db pk with
  | DetailOutcome.ok t => (DetailOutcome.ok (), db.erase t)
  | DetailOutcome.notFound => (DetailOutcome.notFound, db)
  | DetailOutcome.forbidden => (DetailOutcome.forbidden, db)

/-- DELETE /categories/pk. -/
def categoryDestroy (u : Nat) (db : List Category) (pk : Nat) :
    DetailOutcome Unit × List Category :=
  match categoryGetObject u db pk with
  | DetailOutcome.ok c => (DetailOutcome.ok (), db.erase c)
  | DetailOutcome.notFound => (DetailOutcome.notFound, db)
  | DetailOutcome.forbidden => (DetailOutcome.forbidden, db)

/-- The writable fields of CategorySerializer. -/
structure CategoryInput where
  name : String
  color : String
  icon : String
  type : TxType
  budget : Int
deriving DecidableEq

/-- Overwrite the writable serializer fields of a category row (id and owner
are read-only / set by the view). -/
def applyCategoryInput (c : Category) (inp : CategoryInput) : Category :=
  { c with name := inp.name, color := inp.color, icon := inp.icon
         , type := inp.type, budget := inp.budget }

/-- PUT or PATCH /categories/pk: get_object on the scoped queryset, then save
the payload onto the found row. -/
def categoryUpdate (u : Nat) (db : List Category) (pk : Nat) (inp : CategoryInput) :
    DetailOutcome Category × List Category :=
  match categoryGetObject u db pk with
  | DetailOutcome.ok c =>
      let c2 := applyCategoryInput c inp
      (DetailOutcome.ok c2, db.map (fun r => if r = c then c2 else r))
  | DetailOutcome.notFound => (DetailOutcome.notFound, db)
  | DetailOutcome.forbidden => (DetailOutcome.forbidden, db)

/-- SQL Sum aggregate: none when there are no rows. -/
def sqlSum (l : List Int) : Option Int :=
  if l.isEmpty then none else some l.sum

/-- filter(type=income). -/
def isIncomeTx (t : Transaction) : Bool := decide (t.type = TxType.income)

/-- filter(type=expense). -/
def isExpenseTx (t : Transaction) : Bool := decide (t.type = TxType.expense)

/-- qs.filter(type=income).aggregate(total=Sum(amount))[total] or 0; used by
both the dashboard summary and the analytics savings rate. -/
def incomeTotal (txns : List Transaction) : Int :=
  (sqlSum ((txns.filter isIncomeTx).map (fun t => t.amount))).getD 0

/-- qs.filter(type=expense).aggregate(total=Sum(amount))[total] or 0: the
signed expense sum of the dashboard summary. -/
def expenseTotalSigned (txns : List Transaction) : Int :=
  (sqlSum ((txns.filter isExpenseTx).map (fun t => t.amount))).getD 0

/-- The summary object of the dashboard response. -/
structure DashboardTotals where
  total_income : Int
  total_expenses : Int
  balance : Int
deriving DecidableEq

/-- DashboardSummaryView.get, summary part: income total, absolute value of
the signed expense total, and their difference. -/
def dashboardTotals (txns : List Transaction) : DashboardTotals :=
  let income_total := incomeTotal txns
  let expense_total_abs := |expenseTotalSigned txns|
  { total_income := income_total
  , total_expenses := expense_total_abs
  , balance := income_total - expense_total_abs }

/-- One entry of the dashboard monthly chart. -/
structure ChartRow where
  month : String
  income : Int
  expenses : Int
deriving DecidableEq

/-- One defaultdict bucket update: add inc and exp to the bucket of the given
month label, creating the bucket at the end when it does not exist (Python
dicts keep insertion order). -/
def chartAdd (label : String) (inc exp : Int) : List ChartRow → List ChartRow
  | [] => [{ month := label, income := inc, expenses := exp }]
  | r :: rest =>
      if r.month = label then
        { r with income := r.income + inc, expenses := r.expenses + exp } :: rest
      else r :: chartAdd label inc exp rest

/-- Body of the chart loop of DashboardSummaryView.get: an income transaction
adds its raw amount to the income bucket, anything else adds abs(amount) to
the expenses bucket, keyed by the month abbreviation of the date. -/
def chartStep (acc : List ChartRow) (t : Transaction) : List ChartRow :=
  match t.type with
  | TxType.income => chartAdd t.date.monthAbbrev t.amount 0 acc
  | TxType.expense => chartAdd t.date.monthAbbrev 0 |t.amount| acc

/-- The monthly chart of the dashboard response, built over ALL transactions
of the user with no date restriction. -/
def chartData (txns : List Transaction) : List ChartRow :=
  txns.foldl chartStep []

/-- Sum of raw amounts of the income transactions carrying a month label. -/
def monthIncomeSum (txns : List Transaction) (label : String) : Int :=
  ((txns.filter (fun t => isIncomeTx t && decide (t.date.monthAbbrev = label))).map
    (fun t => t.amount)).sum

/-- Sum of absolute amounts of the expense transactions carrying a label. -/
def monthExpenseSum (txns : List Transaction) (label : String) : Int :=
  ((txns.filter (fun t => isExpenseTx t && decide (t.date.monthAbbrev = label))).map
    (fun t => |t.amount|)).sum

/-- First chart row carrying a given month label, as a (income, expenses)
pair. -/
def chartLookup (label : String) : List ChartRow → Option (Int × Int)
  | [] => none
  | r :: rest => if r.month = label then some (r.income, r.expenses) else chartLookup label rest

/-- recent_transactions of the dashboard response: qs.order_by(-date, -id)
limited to 5 rows, serialized. -/
def recentTransactions (txns : List Transaction) : List SerializedTransaction :=
  ((sortBy recentLE txns).take 5).map serializeTransaction

/-- category__name read through the nullable FK. -/
def catName (t : Transaction) : Option String := t.category.map (fun c => c.name)

/-- qs.filter(type=expense, category__isnull=False). -/
def expenseWithCategory (txns : List Transaction) : List Transaction :=
  txns.filter (fun t => isExpenseTx t && t.category.isSome)

/-- The distinct grouping keys of values(category__name). -/
def categoryNames (txns : List Transaction) : List String :=
  ((expenseWithCategory txns).filterMap catName).dedup

/-- annotate(total=Sum(Abs(amount))) for one group key. -/
def categoryValue (txns : List Transaction) (n : String) : Int :=
  (((expenseWithCategory txns).filter (fun t => decide (catName t = some n))).map
    (fun t => |t.amount|)).sum

/-- order_by(-total): a may precede b when the value of b is at most that of
a. -/
def valueDescLE (a b : String × Int) : Bool := decide (b.2 ≤ a.2)

/-- category_data of AnalyticsOverviewView.get: expense transactions with a
non-null category, grouped by category name with per-group Sum(Abs(amount)),
ordered by descending total. -/
def categoryData (txns : List Transaction) : List (String × Int) :=
  sortBy valueDescLE ((categoryNames txns).map (fun n => (n, categoryValue txns n)))

/-- Sum(Abs(amount)) over expense transactions with date in the inclusive
window from today minus 30 days to today, or 0 when there are none.  The
bounds date__gte=fromordinal(toordinal(today) - 30) and date__lte=today
compare ordinals. -/
def last30ExpenseTotal (txns : List Transaction) (today : Int) : Int :=
  (sqlSum ((txns.filter (fun t =>
    isExpenseTx t && decide (today - 30 ≤ t.date.toordinal ∧ t.date.toordinal ≤ today))).map
      (fun t => |t.amount|))).getD 0

/-- average_daily_spending: the 30-day expense total divided by the constant
30 (exact rational). -/
def avgDailySpending (txns : List Transaction) (today : Int) : Rat :=
  (last30ExpenseTotal txns today : Rat) / 30

/-- top_category: the name of the first category_data entry, if any. -/
def topCategory (txns : List Transaction) : Option String :=
  (categoryData txns).head?.map (fun c => c.1)

/-- total_expenses_value: sum of the values of all category_data entries. -/
def totalExpensesValue (txns : List Transaction) : Int :=
  ((categoryData txns).map (fun c => c.2)).sum

/-- top_category_percent: the first category_data value over the sum of all
values times 100, guarded by the sum being positive and category_data being
non-empty. -/
def topCategoryPercent (txns : List Transaction) : Option Rat :=
  match categoryData txns with
  | [] => none
  | top :: _ =>
      if 0 < totalExpensesValue txns then
        some ((top.2 : Rat) / (totalExpensesValue txns : Rat) * 100)
      else none

/-- qs.filter(type=expense).aggregate(total=Sum(Abs(amount)))[total] or 0:
the sum-of-absolute-values expense total used by the savings rate. -/
def expenseAbsTotal (txns : List Transaction) : Int :=
  (sqlSum ((txns.filter isExpenseTx).map (fun t => |t.amount|))).getD 0

/-- savings_rate: (income - expense) / income * 100 guarded by income > 0,
else null. -/
def savingsRate (txns : List Transaction) : Option Rat :=
  if 0 < incomeTotal txns then
    some (((incomeTotal txns : Rat) - (expenseAbsTotal txns : Rat)) / (incomeTotal txns : Rat) * 100)
  else none

/-- Fixture: the Food category of the test suite. -/
def foodCategory : Category :=
  { id := 1, user := 1, name := "Food", color := "#3b82f6", icon := "ShoppingCart"
  , type := TxType.expense, budget := 50000 }

/-- Fixture: the Salary category of the test suite. -/
def salaryCategory : Category :=
  { id := 2, user := 1, name := "Salary", color := "#3b82f6", icon := "ShoppingCart"
  , type := TxType.income, budget := 0 }

/-- Fixture: a lone 10.00 expense (1000 cents) dated on a given day. -/
def tenExpenseOn (day : Int) : Transaction :=
  { id := 1, user := 1, category := some foodCategory, description := "Lunch"
  , amount := -1000, type := TxType.expense, date := { toordinal := day, monthAbbrev := "Oct" } }

/-- Fixture: spec section 8 example set, one expense of 25.50 (Food) and one
income of 3000.00 (Salary) on the same date, in cents. -/
def specExampleTxns : List Transaction :=
  [ { id := 1, user := 1, category := some foodCategory, description := "Lunch"
    , amount := -2550, type := TxType.expense, date := { toordinal := 739000, monthAbbrev := "Oct" } }
  , { id := 2, user := 1, category := some salaryCategory, description := "Monthly Salary"
    , amount := 300000, type := TxType.income, date := { toordinal := 739000, monthAbbrev := "Oct" } } ]

/-- Fixture: two expense rows of opposite sign; their signed sum is 0 while
their sum of absolute values is 1000, separating the two expense-total
formulas. -/
def mixedSignExpenses : List Transaction :=
  [ { id := 1, user := 1, category := none, description := "refunded"
    , amount := -500, type := TxType.expense, date := { toordinal := 739000, monthAbbrev := "Oct" } }
  , { id := 2, user := 1, category := none, description := "refund"
    , amount := 500, type := TxType.expense, date := { toordinal := 739001, monthAbbrev := "Oct" } } ]

/-- Fixture: a transaction owned by another principal (user 2). -/
def foreignTxn : Transaction :=
  { id := 1, user := 2, category := none, description := "theirs"
  , amount := -100, type := TxType.expense, date := { toordinal := 739000, monthAbbrev := "Oct" } }

/-- Fixture: a category owned by another principal (user 2). -/
def foreignCat : Category :=
  { id := 1, user := 2, name := "Their Food", color := "#3b82f6", icon := "ShoppingCart"
  , type := TxType.expense, budget := 0 }

/-- Fixture: a write payload used by witnesses. -/
def sampleInput : TransactionInput :=
  { description := "Cinema", amount := 1200, type := TxType.expense
  , date := { toordinal := 739001, monthAbbrev := "Oct" }, category := none }

/-- Fixture: a category write payload used by witnesses. -/
def sampleCatInput : CategoryInput :=
  { name := "Groceries", color := "#ff0000", icon := "Restaurant"
  , type := TxType.expense, budget := 60000 }

/-- Fixture: the PATCH body of tests.py test_update_transaction, in cents:
a new description and amount 30.00 with NO type field. -/
def patchAmountOnly : PartialTransactionInput :=
  { description := some "Business Lunch", amount := some 3000
  , type := none, date := none, category := none }

theorem insertBy_perm {α : Type} (le : α → α → Bool) (a : α) (l : List α) :
    (insertBy le a l).Perm (a :: l) := by
  induction l with
  | nil => simp [insertBy]
  | cons b bs ih =>
      cases hab : le a b with
      | true => simp [insertBy, hab]
      | false =>
          simp only [insertBy, hab, Bool.false_eq_true, if_false]
          exact (ih.cons b).trans (List.Perm.swap a b bs)

theorem sortBy_perm {α : Type} (le : α → α → Bool) (l : List α) :
    (sortBy le l).Perm l := by
  induction l with
  | nil => simp [sortBy]
  | cons a as ih => exact (insertBy_perm le a (sortBy le as)).trans (ih.cons a)

theorem insertBy_mem {α : Type} (le : α → α → Bool) (a x : α) (l : List α) :
    x ∈ insertBy le a l ↔ x = a ∨ x ∈ l := by
  rw [(insertBy_perm le a l).mem_iff, List.mem_cons]

theorem sortBy_mem {α : Type} (le : α → α → Bool) (x : α) (l : List α) :
    x ∈ sortBy le l ↔ x ∈ l :=
  (sortBy_perm le l).mem_iff

theorem insertBy_pairwise {α : Type} (le : α → α → Bool)
    (htrans : ∀ x y z, le x y = true → le y z = true → le x z = true)
    (htot : ∀ x y, le x y = true ∨ le y x = true) (a : α) (l : List α)
    (h : l.Pairwise (fun x y => le x y = true)) :
    (insertBy le a l).Pairwise (fun x y => le x y = true) := by
  induction l with
  | nil => simp [insertBy]
  | cons b bs ih =>
      rcases List.pairwise_cons.mp h with ⟨hb, hbs⟩
      cases hab : le a b with
      | true =>
          simp only [insertBy, hab, if_true]
          refine List.pairwise_cons.mpr ⟨?_, h⟩
          intro x hx
          rcases List.mem_cons.mp hx with rfl | hx2
          · exact hab
          · exact htrans a b x hab (hb x hx2)
      | false =>
          have hba : le b a = true := by
            rcases htot a b with h1 | h1
            · rw [hab] at h1; cases h1
            · exact h1
          simp only [insertBy, hab, Bool.false_eq_true, if_false]
          refine List.pairwise_cons.mpr ⟨?_, ih hbs⟩
          intro x hx
          rcases (insertBy_mem le a x bs).mp hx with rfl | hx2
          · exact hba
          · exact hb x hx2

theorem sortBy_pairwise {α : Type} (le : α → α → Bool)
    (htrans : ∀ x y z, le x y = true → le y z = true → le x z = true)
    (htot : ∀ x y, le x y = true ∨ le y x = true) (l : List α) :
    (sortBy le l).Pairwise (fun x y => le x y = true) := by
  induction l with
  | nil => simp [sortBy]
  | cons a as ih => exact insertBy_pairwise le htrans htot a (sortBy le as) ih

theorem sqlSum_getD (l : List Int) : (sqlSum l).getD 0 = l.sum := by
  cases l <;> simp [sqlSum]

theorem normalizeAmount_spec (ttype : TxType) (amount : Int) :
    (ttype = TxType.expense → normalizeAmount ttype amount ≤ 0)
    ∧ (ttype = TxType.income → 0 ≤ normalizeAmount ttype amount)
    ∧ |normalizeAmount ttype amount| = |amount| := by
  cases ttype with
  | income =>
      refine ⟨fun h => TxType.noConfusion h, fun _ => ?_, ?_⟩ <;>
      · simp only [normalizeAmount]
        split_ifs <;>
          first
          | omega
          | simp_all [abs_abs, abs_neg, neg_nonpos, abs_nonneg]
  | expense =>
      refine ⟨fun _ => ?_, fun h => TxType.noConfusion h, ?_⟩ <;>
      · simp only [normalizeAmount]
        split_ifs <;>
          first
          | omega
          | simp_all [abs_abs, abs_neg, neg_nonpos, abs_nonneg]

/-- Full-payload writes (POST create and PUT update) do normalize: the
serializer sees both type and amount, so stored amounts keep a sign matching
the type, the payload is never rejected, and the flip preserves the absolute
value and the type.  The PATCH partial-update path does NOT enjoy this
property; see the violation theorem below. -/
theorem fullPayloadWrite_sign_normalization (u newId pk : Nat) (db : List Transaction)
    (inp : TransactionInput) (hdb : ∀ t ∈ db, SignOK t) :
    (∀ t ∈ transactionCreate u db newId inp, SignOK t)
    ∧ (∀ t ∈ (transactionUpdate u db pk inp).2, SignOK t)
    ∧ (transactionCreate u db newId inp).length = db.length + 1
    ∧ |(validateInput inp).amount| = |inp.amount|
    ∧ (validateInput inp).type = inp.type := by
  have hnorm := normalizeAmount_spec inp.type inp.amount
  have hvOK : ∀ t : Transaction, t.type = inp.type →
      t.amount = normalizeAmount inp.type inp.amount → SignOK t := by
    intro t hty hamt
    constructor
    · intro hexp; rw [hamt]; exact hnorm.1 (hty ▸ hexp)
    · intro hinc; rw [hamt]; exact hnorm.2.1 (hty ▸ hinc)
  refine ⟨?_, ?_, by simp [transactionCreate], hnorm.2.2, rfl⟩
  · intro t ht
    rcases List.mem_append.mp ht with hmem | hmem
    · exact hdb t hmem
    · have : t = mkTransaction newId u (validateInput inp) := by simpa using hmem
      subst this
      exact hvOK _ rfl rfl
  · intro t ht
    cases hgo : transactionGetObject u db pk with
    | ok t0 =>
        simp only [transactionUpdate, hgo] at ht
        rcases List.mem_map.mp ht with ⟨r, hr, hrt⟩
        by_cases hreq : r = t0
        · rw [if_pos hreq] at hrt
          subst hrt
          exact hvOK _ rfl rfl
        · rw [if_neg hreq] at hrt
          subst hrt
          exact hdb r hr
    | notFound =>
        simp only [transactionUpdate, hgo] at ht
        exact hdb t ht
    | forbidden =>
        simp only [transactionUpdate, hgo] at ht
        exact hdb t ht

/-- The full-payload normalization theorem applied to a concrete store and a
concrete inconsistent payload (a positive expense amount). -/
theorem fullPayloadWrite_sign_normalization_check :
    (∀ t ∈ [tenExpenseOn 739000], SignOK t)
    ∧ ((∀ t ∈ transactionCreate 1 [tenExpenseOn 739000] 2
          { description := "Cinema", amount := 1200, type := TxType.expense
          , date := { toordinal := 739001, monthAbbrev := "Oct" }, category := none }, SignOK t)
        ∧ (∀ t ∈ (transactionUpdate 1 [tenExpenseOn 739000] 9
          { description := "Cinema", amount := 1200, type := TxType.expense
          , date := { toordinal := 739001, monthAbbrev := "Oct" }, category := none }).2, SignOK t)
        ∧ (transactionCreate 1 [tenExpenseOn 739000] 2
          { description := "Cinema", amount := 1200, type := TxType.expense
          , date := { toordinal := 739001, monthAbbrev := "Oct" }, category := none }).length
            = [tenExpenseOn 739000].length + 1
        ∧ |(validateInput
          { description := "Cinema", amount := 1200, type := TxType.expense
          , date := { toordinal := 739001, monthAbbrev := "Oct" }, category := none }).amount| = |(1200 : Int)|
        ∧ (validateInput
          { description := "Cinema", amount := 1200, type := TxType.expense
          , date := { toordinal := 739001, monthAbbrev := "Oct" }, category := none }).type
            = TxType.expense) :=
  ⟨by decide, fullPayloadWrite_sign_normalization 1 2 9 [tenExpenseOn 739000]
    { description := "Cinema", amount := 1200, type := TxType.expense
    , date := { toordinal := 739001, monthAbbrev := "Oct" }, category := none } (by decide)⟩

/-- C1: the claim fails on the code through the PATCH write path.  On a store
holding one expense row of -10.00 owned by user 1, the PATCH of tests.py
test_update_transaction (description plus amount 30.00, no type field,
issued by the owner against pk 1) succeeds and stores amount +3000 cents on
a row whose type is still expense: validate() reads attrs.get('type'),
obtains None, and skips both sign fixes, so the write-path normalization the
claim asserts for every create-or-update write does not happen and the
stored row violates the sign invariant. -/
theorem c1_patch_sign_violation :
    ((transactionPartialUpdate 1 [tenExpenseOn 739000] 1 patchAmountOnly).2
      = [{ tenExpenseOn 739000 with description := "Business Lunch", amount := 3000 }])
    ∧ (∃ t ∈ (transactionPartialUpdate 1 [tenExpenseOn 739000] 1 patchAmountOnly).2,
        t.type = TxType.expense ∧ 0 < t.amount ∧ ¬ SignOK t) := by
  constructor
  · decide
  · decide

theorem mem_transactionQueryset {u : Nat} {db : List Transaction} {t : Transaction} :
    t ∈ transactionQueryset u db ↔ t ∈ db ∧ t.user = u := by
  simp [transactionQueryset, List.mem_filter]

theorem mem_categoryQueryset {u : Nat} {db : List Category} {c : Category} :
    c ∈ categoryQueryset u db ↔ c ∈ db ∧ c.user = u := by
  simp [categoryQueryset, List.mem_filter]

theorem transactionGetObject_notFound {u pk : Nat} {db : List Transaction}
    (h : ∀ t ∈ db, t.id = pk → t.user ≠ u) :
    transactionGetObject u db pk = DetailOutcome.notFound := by
  unfold transactionGetObject
  cases hfind : (transactionQueryset u db).find? (fun t => decide (t.id = pk)) with
  | none => rfl
  | some t =>
      exfalso
      have hmem := List.mem_of_find?_eq_some hfind
      have hid : t.id = pk := by simpa using List.find?_some hfind
      rcases mem_transactionQueryset.mp hmem with ⟨hdb2, huser⟩
      exact h t hdb2 hid huser

theorem categoryGetObject_notFound {u pk : Nat} {db : List Category}
    (h : ∀ c ∈ db, c.id = pk → c.user ≠ u) :
    categoryGetObject u db pk = DetailOutcome.notFound := by
  unfold categoryGetObject
  cases hfind : (categoryQueryset u db).find? (fun c => decide (c.id = pk)) with
  | none => rfl
  | some c =>
      exfalso
      have hmem := List.mem_of_find?_eq_some hfind
      have hid : c.id = pk := by simpa using List.find?_some hfind
      rcases mem_categoryQueryset.mp hmem with ⟨hdb2, huser⟩
      exact h c hdb2 hid huser

theorem transactionGetObject_ne_forbidden (u : Nat) (db : List Transaction) (pk : Nat) :
    transactionGetObject u db pk ≠ DetailOutcome.forbidden := by
  unfold transactionGetObject
  cases (transactionQueryset u db).find? (fun t => decide (t.id = pk)) <;> simp

theorem categoryGetObject_ne_forbidden (u : Nat) (db : List Category) (pk : Nat) :
    categoryGetObject u db pk ≠ DetailOutcome.forbidden := by
  unfold categoryGetObject
  cases (categoryQueryset u db).find? (fun c => decide (c.id = pk)) <;> simp

theorem transactionRetrieve_ne_forbidden (u : Nat) (db : List Transaction) (pk : Nat) :
    transactionRetrieve u db pk ≠ DetailOutcome.forbidden := by
  unfold transactionRetrieve
  cases hx : transactionGetObject u db pk with
  | ok t => simp
  | notFound => simp
  | forbidden => exact absurd hx (transactionGetObject_ne_forbidden u db pk)

theorem transactionUpdate_ne_forbidden (u : Nat) (db : List Transaction) (pk : Nat)
    (inp : TransactionInput) :
    (transactionUpdate u db pk inp).1 ≠ DetailOutcome.forbidden := by
  unfold transactionUpdate
  cases hx : transactionGetObject u db pk with
  | ok t => simp
  | notFound => simp
  | forbidden => exact absurd hx (transactionGetObject_ne_forbidden u db pk)

theorem transactionPartialUpdate_ne_forbidden (u : Nat) (db : List Transaction) (pk : Nat)
    (attrs : PartialTransactionInput) :
    (transactionPartialUpdate u db pk attrs).1 ≠ DetailOutcome.forbidden := by
  unfold transactionPartialUpdate
  cases hx : transactionGetObject u db pk with
  | ok t => simp
  | notFound => simp
  | forbidden => exact absurd hx (transactionGetObject_ne_forbidden u db pk)

theorem categoryUpdate_ne_forbidden (u : Nat) (db : List Category) (pk : Nat)
    (inp : CategoryInput) :
    (categoryUpdate u db pk inp).1 ≠ DetailOutcome.forbidden := by
  unfold categoryUpdate
  cases hx : categoryGetObject u db pk with
  | ok c => simp
  | notFound => simp
  | forbidden => exact absurd hx (categoryGetObject_ne_forbidden u db pk)

theorem transactionDestroy_ne_forbidden (u : Nat) (db : List Transaction) (pk : Nat) :
    (transactionDestroy u db pk).1 ≠ DetailOutcome.forbidden := by
  unfold transactionDestroy
  cases hx : transactionGetObject u db pk with
  | ok t => simp
  | notFound => simp
  | forbidden => exact absurd hx (transactionGetObject_ne_forbidden u db pk)

theorem categoryDestroy_ne_forbidden (u : Nat) (db : List Category) (pk : Nat) :
    (categoryDestroy u db pk).1 ≠ DetailOutcome.forbidden := by
  unfold categoryDestroy
  cases hx : categoryGetObject u db pk with
  | ok c => simp
  | notFound => simp
  | forbidden => exact absurd hx (categoryGetObject_ne_forbidden u db pk)

theorem transactionList_scope {u : Nat} {db : List Transaction} {p : TxnListParams}
    {t : Transaction} (h : t ∈ transactionList u db p) : t ∈ db ∧ t.user = u := by
  have h2 : t ∈ sortBy recentLE (transactionQueryset u db) := by
    rcases p with ⟨tt, cid, s⟩
    unfold transactionList at h
    cases tt <;> cases cid <;> cases s <;> simp_all [List.mem_filter]
  exact mem_transactionQueryset.mp ((sortBy_mem recentLE t _).mp h2)

theorem categoryList_scope {u : Nat} {db : List Category} {c : Category}
    (h : c ∈ categoryList u db) : c ∈ db ∧ c.user = u := by
  exact mem_categoryQueryset.mp ((sortBy_mem categoryNameLE c _).mp h)

/-- C2: list responses only ever contain rows owned by the requesting
principal; detail, update (full PUT and partial PATCH) and delete on a row
id owned by a different principal answer not-found (404) and leave the store
unchanged, never forbidden (403); and every response the principal receives
is unchanged when the rows of other principals change (any two stores whose
owner-scoped querysets agree produce identical responses). -/
theorem c2_owner_scoping (u pk : Nat) (p : TxnListParams) (inp : TransactionInput)
    (pattrs : PartialTransactionInput) (cinp : CategoryInput)
    (dbT dbT2 : List Transaction) (dbC dbC2 : List Category)
    (hT : transactionQueryset u dbT = transactionQueryset u dbT2)
    (hC : categoryQueryset u dbC = categoryQueryset u dbC2)
    (hpkT : ∀ t ∈ dbT, t.id = pk → t.user ≠ u)
    (hpkC : ∀ c ∈ dbC, c.id = pk → c.user ≠ u) :
    (∀ t ∈ transactionList u dbT p, t.user = u)
    ∧ (∀ c ∈ categoryList u dbC, c.user = u)
    ∧ transactionRetrieve u dbT pk = DetailOutcome.notFound
    ∧ transactionUpdate u dbT pk inp = (DetailOutcome.notFound, dbT)
    ∧ transactionPartialUpdate u dbT pk pattrs = (DetailOutcome.notFound, dbT)
    ∧ transactionDestroy u dbT pk = (DetailOutcome.notFound, dbT)
    ∧ categoryRetrieve u dbC pk = DetailOutcome.notFound
    ∧ categoryUpdate u dbC pk cinp = (DetailOutcome.notFound, dbC)
    ∧ categoryDestroy u dbC pk = (DetailOutcome.notFound, dbC)
    ∧ (∀ pk2, transactionRetrieve u dbT pk2 ≠ DetailOutcome.forbidden
        ∧ (transactionUpdate u dbT pk2 inp).1 ≠ DetailOutcome.forbidden
        ∧ (transactionPartialUpdate u dbT pk2 pattrs).1 ≠ DetailOutcome.forbidden
        ∧ (transactionDestroy u dbT pk2).1 ≠ DetailOutcome.forbidden
        ∧ categoryRetrieve u dbC pk2 ≠ DetailOutcome.forbidden
        ∧ (categoryUpdate u dbC pk2 cinp).1 ≠ DetailOutcome.forbidden
        ∧ (categoryDestroy u dbC pk2).1 ≠ DetailOutcome.forbidden)
    ∧ transactionList u dbT p = transactionList u dbT2 p
    ∧ categoryList u dbC = categoryList u dbC2
    ∧ (∀ pk2, transactionRetrieve u dbT pk2 = transactionRetrieve u dbT2 pk2
        ∧ (transactionUpdate u dbT pk2 inp).1 = (transactionUpdate u dbT2 pk2 inp).1
        ∧ (transactionPartialUpdate u dbT pk2 pattrs).1
            = (transactionPartialUpdate u dbT2 pk2 pattrs).1
        ∧ (transactionDestroy u dbT pk2).1 = (transactionDestroy u dbT2 pk2).1
        ∧ categoryRetrieve u dbC pk2 = categoryRetrieve u dbC2 pk2
        ∧ (categoryUpdate u dbC pk2 cinp).1 = (categoryUpdate u dbC2 pk2 cinp).1
        ∧ (categoryDestroy u dbC pk2).1 = (categoryDestroy u dbC2 pk2).1) := by
  have hgoT : ∀ pk2, transactionGetObject u dbT pk2 = transactionGetObject u dbT2 pk2 := by
    intro pk2; unfold transactionGetObject; rw [hT]
  have hgoC : ∀ pk2, categoryGetObject u dbC pk2 = categoryGetObject u dbC2 pk2 := by
    intro pk2; unfold categoryGetObject; rw [hC]
  have hnfT : transactionGetObject u dbT pk = DetailOutcome.notFound :=
    transactionGetObject_notFound hpkT
  have hnfC : categoryGetObject u dbC pk = DetailOutcome.notFound :=
    categoryGetObject_notFound hpkC
  refine ⟨fun t ht => (transactionList_scope ht).2,
          fun c hc => (categoryList_scope hc).2,
          ?_, ?_, ?_, ?_, ?_, ?_, ?_, ?_, ?_, ?_, ?_⟩
  · simp [transactionRetrieve, hnfT]
  · simp [transactionUpdate, hnfT]
  · simp [transactionPartialUpdate, hnfT]
  · simp [transactionDestroy, hnfT]
  · simp [categoryRetrieve, hnfC]
  · simp [categoryUpdate, hnfC]
  · simp [categoryDestroy, hnfC]
  · intro pk2
    exact ⟨transactionRetrieve_ne_forbidden u dbT pk2,
           transactionUpdate_ne_forbidden u dbT pk2 inp,
           transactionPartialUpdate_ne_forbidden u dbT pk2 pattrs,
           transactionDestroy_ne_forbidden u dbT pk2,
           categoryGetObject_ne_forbidden u dbC pk2,
           categoryUpdate_ne_forbidden u dbC pk2 cinp,
           categoryDestroy_ne_forbidden u dbC pk2⟩
  · unfold transactionList; rw [hT]
  · unfold categoryList; rw [hC]
  · intro pk2
    refine ⟨?_, ?_, ?_, ?_, ?_, ?_, ?_⟩
    · unfold transactionRetrieve; rw [hgoT pk2]
    · unfold transactionUpdate
      rw [hgoT pk2]
      cases transactionGetObject u dbT2 pk2 <;> rfl
    · unfold transactionPartialUpdate
      rw [hgoT pk2]
      cases transactionGetObject u dbT2 pk2 <;> rfl
    · unfold transactionDestroy
      rw [hgoT pk2]
      cases transactionGetObject u dbT2 pk2 <;> rfl
    · unfold categoryRetrieve; rw [hgoC pk2]
    · unfold categoryUpdate
      rw [hgoC pk2]
      cases categoryGetObject u dbC2 pk2 <;> rfl
    · unfold categoryDestroy
      rw [hgoC pk2]
      cases categoryGetObject u dbC2 pk2 <;> rfl

/-- C2 witness: with principal 1 and stores holding only rows of principal 2,
all hypotheses hold concretely; detail requests for the foreign rows answer
not-found and the foreign category update answers not-found leaving the
store unchanged. -/
theorem c2_owner_scoping_witness :
    (transactionQueryset 1 [foreignTxn] = transactionQueryset 1 [])
    ∧ (categoryQueryset 1 [foreignCat] = categoryQueryset 1 [])
    ∧ (∀ t ∈ [foreignTxn], t.id = 1 → t.user ≠ 1)
    ∧ (∀ c ∈ [foreignCat], c.id = 1 → c.user ≠ 1)
    ∧ transactionRetrieve 1 [foreignTxn] 1 = DetailOutcome.notFound
    ∧ categoryRetrieve 1 [foreignCat] 1 = DetailOutcome.notFound
    ∧ categoryUpdate 1 [foreignCat] 1 sampleCatInput = (DetailOutcome.notFound, [foreignCat])
    ∧ transactionPartialUpdate 1 [foreignTxn] 1 patchAmountOnly
        = (DetailOutcome.notFound, [foreignTxn]) :=
  ⟨by decide, by decide, by decide, by decide,
   (c2_owner_scoping 1 1 ⟨none, none, none⟩ sampleInput patchAmountOnly sampleCatInput
      [foreignTxn] [] [foreignCat] []
      (by decide) (by decide) (by decide) (by decide)).2.2.1,
   (c2_owner_scoping 1 1 ⟨none, none, none⟩ sampleInput patchAmountOnly sampleCatInput
      [foreignTxn] [] [foreignCat] []
      (by decide) (by decide) (by decide) (by decide)).2.2.2.2.2.2.1,
   (c2_owner_scoping 1 1 ⟨none, none, none⟩ sampleInput patchAmountOnly sampleCatInput
      [foreignTxn] [] [foreignCat] []
      (by decide) (by decide) (by decide) (by decide)).2.2.2.2.2.2.2.1,
   (c2_owner_scoping 1 1 ⟨none, none, none⟩ sampleInput patchAmountOnly sampleCatInput
      [foreignTxn] [] [foreignCat] []
      (by decide) (by decide) (by decide) (by decide)).2.2.2.2.1⟩

/-- C3: the dashboard summary computes total_income as the sum of amounts of
the income transactions (0 when there are none), total_expenses as the
absolute value of the SIGNED sum of amounts of the expense transactions (0
when there are none), and balance exactly equal to total_income minus
total_expenses; on the mixed-sign fixture the signed-sum-then-abs formula
gives 0, differing from the sum of absolute values (1000), so the two
formulas are distinct. -/
theorem c3_dashboard_totals (txns : List Transaction) :
    (dashboardTotals txns).total_income = ((txns.filter isIncomeTx).map (fun t => t.amount)).sum
    ∧ (dashboardTotals txns).total_expenses
        = |((txns.filter isExpenseTx).map (fun t => t.amount)).sum|
    ∧ (dashboardTotals txns).balance
        = (dashboardTotals txns).total_income - (dashboardTotals txns).total_expenses
    ∧ (dashboardTotals mixedSignExpenses).total_expenses = 0
    ∧ ((mixedSignExpenses.filter isExpenseTx).map (fun t => |t.amount|)).sum = 1000 := by
  refine ⟨?_, ?_, rfl, by decide, by decide⟩
  · simp [dashboardTotals, incomeTotal, sqlSum_getD]
  · simp [dashboardTotals, expenseTotalSigned, sqlSum_getD]

/-- C4: the analytics savings rate equals (income - expenses) / income * 100
with expenses the sum of absolute values over expense transactions, and it is
null exactly when the income total is zero or negative (the guard is strictly
positive). -/
theorem c4_savings_rate (txns : List Transaction) :
    (savingsRate txns = none ↔ incomeTotal txns ≤ 0)
    ∧ (0 < incomeTotal txns →
        savingsRate txns
          = some (((incomeTotal txns : Rat) - (expenseAbsTotal txns : Rat))
              / (incomeTotal txns : Rat) * 100))
    ∧ incomeTotal txns = ((txns.filter isIncomeTx).map (fun t => t.amount)).sum
    ∧ expenseAbsTotal txns = ((txns.filter isExpenseTx).map (fun t => |t.amount|)).sum
    ∧ expenseAbsTotal mixedSignExpenses = 1000 := by
  refine ⟨⟨?_, ?_⟩, fun h => by rw [savingsRate, if_pos h],
    by simp [incomeTotal, sqlSum_getD], by simp [expenseAbsTotal, sqlSum_getD], by decide⟩
  · intro hnone
    by_contra hpos
    push_neg at hpos
    rw [savingsRate, if_pos hpos] at hnone
    cases hnone
  · intro hle
    rw [savingsRate, if_neg (by omega)]

/-- C4 witness: on the spec example set (income 3000.00, expense 25.50 in
cents) the guard holds and the formula instance is produced. -/
theorem c4_savings_rate_witness :
    0 < incomeTotal specExampleTxns
    ∧ savingsRate specExampleTxns
        = some (((incomeTotal specExampleTxns : Rat) - (expenseAbsTotal specExampleTxns : Rat))
            / (incomeTotal specExampleTxns : Rat) * 100) :=
  ⟨by decide, (c4_savings_rate specExampleTxns).2.1 (by decide)⟩

/-- C6: average_daily_spending is the sum of absolute amounts of expense
transactions dated inside the inclusive window from today minus 30 days to
today, divided by the fixed constant 30; a store holding a single 10.00
expense (1000 cents) dated today and nothing else yields 1000/30 cents, that
is 100/3 cents = 0.3333 units. -/
theorem c6_average_daily_spending (txns : List Transaction) (today : Int) :
    avgDailySpending txns today
      = ((((txns.filter (fun t =>
          isExpenseTx t && decide (today - 30 ≤ t.date.toordinal ∧ t.date.toordinal ≤ today))).map
            (fun t => |t.amount|)).sum : Int) : Rat) / 30
    ∧ avgDailySpending [tenExpenseOn 739200] 739200 = 100 / 3 := by
  constructor
  · simp only [avgDailySpending, last30ExpenseTotal, sqlSum_getD]
  · norm_num [avgDailySpending, last30ExpenseTotal, sqlSum, tenExpenseOn, isExpenseTx]

theorem chartLookup_chartAdd_self (label : String) (inc exp : Int) (L : List ChartRow) :
    chartLookup label (chartAdd label inc exp L)
      = some (match chartLookup label L with
              | none => (inc, exp)
              | some (i, e) => (i + inc, e + exp)) := by
  induction L with
  | nil => simp [chartAdd, chartLookup]
  | cons r rest ih =>
      by_cases h : r.month = label
      · simp [chartAdd, chartLookup, h]
      · simp [chartAdd, chartLookup, h, ih]

theorem chartLookup_chartAdd_other {label label2 : String} (h : label2 ≠ label)
    (inc exp : Int) (L : List ChartRow) :
    chartLookup label2 (chartAdd label inc exp L) = chartLookup label2 L := by
  induction L with
  | nil =>
      have hne : ¬(label = label2) := fun he => h he.symm
      simp [chartAdd, chartLookup, hne]
  | cons r rest ih =>
      by_cases h2 : r.month = label
      · subst h2
        simp [chartAdd, chartLookup, Ne.symm h]
      · simp [chartAdd, chartLookup, h2, ih]

theorem monthIncomeSum_cons (t : Transaction) (ts : List Transaction) (label : String) :
    monthIncomeSum (t :: ts) label
      = (if t.type = TxType.income ∧ t.date.monthAbbrev = label then t.amount else 0)
        + monthIncomeSum ts label := by
  by_cases hc : t.type = TxType.income ∧ t.date.monthAbbrev = label
  · simp [monthIncomeSum, List.filter_cons, isIncomeTx, hc, hc.1, hc.2]
  · rw [if_neg hc]
    have : (isIncomeTx t && decide (t.date.monthAbbrev = label)) = false := by
      rcases Decidable.not_and_iff_or_not.mp hc with h1 | h1 <;>
        simp [isIncomeTx, h1, Bool.and_eq_false_iff]
    simp [monthIncomeSum, List.filter_cons, this]

theorem monthExpenseSum_cons (t : Transaction) (ts : List Transaction) (label : String) :
    monthExpenseSum (t :: ts) label
      = (if t.type = TxType.expense ∧ t.date.monthAbbrev = label then |t.amount| else 0)
        + monthExpenseSum ts label := by
  by_cases hc : t.type = TxType.expense ∧ t.date.monthAbbrev = label
  · simp [monthExpenseSum, List.filter_cons, isExpenseTx, hc, hc.1, hc.2]
  · rw [if_neg hc]
    have : (isExpenseTx t && decide (t.date.monthAbbrev = label)) = false := by
      rcases Decidable.not_and_iff_or_not.mp hc with h1 | h1 <;>
        simp [isExpenseTx, h1, Bool.and_eq_false_iff]
    simp [monthExpenseSum, List.filter_cons, this]

theorem chartLookup_chartStep_delta (label : String) (acc : List ChartRow) (t : Transaction)
    (hm : t.date.monthAbbrev = label) :
    chartLookup label (chartStep acc t)
      = some (match chartLookup label acc with
              | none => ((if t.type = TxType.income ∧ t.date.monthAbbrev = label then t.amount else 0),
                         (if t.type = TxType.expense ∧ t.date.monthAbbrev = label then |t.amount| else 0))
              | some (i, e) =>
                  (i + (if t.type = TxType.income ∧ t.date.monthAbbrev = label then t.amount else 0),
                   e + (if t.type = TxType.expense ∧ t.date.monthAbbrev = label then |t.amount| else 0))) := by
  cases hty : t.type with
  | income =>
      simp only [chartStep, hty]
      rw [hm, chartLookup_chartAdd_self]
      simp [hty, hm]
  | expense =>
      simp only [chartStep, hty]
      rw [hm, chartLookup_chartAdd_self]
      simp [hty, hm]

theorem chartLookup_chartStep_other (label : String) (acc : List ChartRow) (t : Transaction)
    (hm : t.date.monthAbbrev ≠ label) :
    chartLookup label (chartStep acc t) = chartLookup label acc := by
  cases hty : t.type with
  | income => simp only [chartStep, hty]; exact chartLookup_chartAdd_other (Ne.symm hm) _ _ _
  | expense => simp only [chartStep, hty]; exact chartLookup_chartAdd_other (Ne.symm hm) _ _ _

theorem chartLookup_foldl_some (label : String) (txns : List Transaction) :
    ∀ (acc : List ChartRow) (i e : Int), chartLookup label acc = some (i, e) →
    chartLookup label (txns.foldl chartStep acc)
      = some (i + monthIncomeSum txns label, e + monthExpenseSum txns label) := by
  induction txns with
  | nil =>
      intro acc i e h
      simpa [monthIncomeSum, monthExpenseSum] using h
  | cons t ts ih =>
      intro acc i e h
      rw [List.foldl_cons, monthIncomeSum_cons, monthExpenseSum_cons]
      by_cases hm : t.date.monthAbbrev = label
      · have hstep := chartLookup_chartStep_delta label acc t hm
        rw [h] at hstep
        rw [ih _ _ _ hstep]
        simp only [Option.some.injEq, Prod.mk.injEq]
        exact ⟨by ring, by ring⟩
      · have hnil : (if t.type = TxType.income ∧ t.date.monthAbbrev = label then t.amount else 0) = 0 := by
          rw [if_neg (fun hc => hm hc.2)]
        have hnie : (if t.type = TxType.expense ∧ t.date.monthAbbrev = label then |t.amount| else 0) = 0 := by
          rw [if_neg (fun hc => hm hc.2)]
        rw [hnil, hnie, zero_add, zero_add,
          ih _ _ _ ((chartLookup_chartStep_other label acc t hm).trans h)]

theorem chartLookup_foldl_present (label : String) (txns : List Transaction) :
    ∀ acc : List ChartRow, chartLookup label acc = none →
    (∃ t ∈ txns, t.date.monthAbbrev = label) →
    chartLookup label (txns.foldl chartStep acc)
      = some (monthIncomeSum txns label, monthExpenseSum txns label) := by
  induction txns with
  | nil =>
      intro acc _ hex
      simp at hex
  | cons t ts ih =>
      intro acc hnone hex
      rw [List.foldl_cons, monthIncomeSum_cons, monthExpenseSum_cons]
      by_cases hm : t.date.monthAbbrev = label
      · have hstep := chartLookup_chartStep_delta label acc t hm
        rw [hnone] at hstep
        by_cases hts : ∃ x ∈ ts, x.date.monthAbbrev = label
        · rw [chartLookup_foldl_some label ts _ _ _ hstep]
        · have hno : ∀ x ∈ ts, x.date.monthAbbrev ≠ label := by
            intro x hx
            exact fun hl => hts ⟨x, hx, hl⟩
          rw [chartLookup_foldl_some label ts _ _ _ hstep]
      · have hex2 : ∃ x ∈ ts, x.date.monthAbbrev = label := by
          rcases hex with ⟨x, hx, hxl⟩
          rcases List.mem_cons.mp hx with rfl | hx2
          · exact absurd hxl hm
          · exact ⟨x, hx2, hxl⟩
        have hnil : (if t.type = TxType.income ∧ t.date.monthAbbrev = label then t.amount else 0) = 0 := by
          rw [if_neg (fun hc => hm hc.2)]
        have hnie : (if t.type = TxType.expense ∧ t.date.monthAbbrev = label then |t.amount| else 0) = 0 := by
          rw [if_neg (fun hc => hm hc.2)]
        rw [hnil, hnie, zero_add, zero_add,
          ih _ ((chartLookup_chartStep_other label acc t hm).trans hnone) hex2]

theorem chartLookup_foldl_absent (label : String) (txns : List Transaction) :
    ∀ acc : List ChartRow, (∀ t ∈ txns, t.date.monthAbbrev ≠ label) →
    chartLookup label (txns.foldl chartStep acc) = chartLookup label acc := by
  induction txns with
  | nil => intro acc _; rfl
  | cons t ts ih =>
      intro acc hno
      rw [List.foldl_cons, ih _ (fun x hx => hno x (List.mem_cons_of_mem t hx)),
        chartLookup_chartStep_other label acc t (hno t (List.mem_cons_self t ts))]

theorem chartAdd_mem_month (label : String) (inc exp : Int) (L : List ChartRow) (m : String) :
    m ∈ (chartAdd label inc exp L).map ChartRow.month
      ↔ m ∈ L.map ChartRow.month ∨ m = label := by
  induction L with
  | nil => simp [chartAdd]
  | cons r rest ih =>
      by_cases h : r.month = label
      · rw [chartAdd, if_pos h]
        simp only [List.map_cons, List.mem_cons]
        constructor
        · rintro (h2 | h2)
          · exact Or.inl (Or.inl h2)
          · exact Or.inl (Or.inr h2)
        · rintro ((h2 | h2) | h2)
          · exact Or.inl h2
          · exact Or.inr h2
          · exact Or.inl (h2.trans h.symm)
      · simp only [chartAdd, if_neg h, List.map_cons, List.mem_cons, ih]
        tauto

theorem chartAdd_nodup_month (label : String) (inc exp : Int) (L : List ChartRow)
    (h : (L.map ChartRow.month).Nodup) :
    ((chartAdd label inc exp L).map ChartRow.month).Nodup := by
  induction L with
  | nil => simp [chartAdd]
  | cons r rest ih =>
      rw [List.map_cons, List.nodup_cons] at h
      by_cases hc : r.month = label
      · subst hc
        simpa [chartAdd, List.nodup_cons] using h
      · rw [chartAdd, if_neg hc, List.map_cons, List.nodup_cons]
        refine ⟨?_, ih h.2⟩
        intro hmem
        rcases (chartAdd_mem_month label inc exp rest r.month).mp hmem with h2 | h2
        · exact h.1 h2
        · exact hc h2

theorem chartFoldl_nodup_month (txns : List Transaction) :
    ∀ acc : List ChartRow, (acc.map ChartRow.month).Nodup →
    (((txns.foldl chartStep acc).map ChartRow.month)).Nodup := by
  induction txns with
  | nil => intro acc h; exact h
  | cons t ts ih =>
      intro acc h
      rw [List.foldl_cons]
      refine ih _ ?_
      cases hty : t.type with
      | income => simpa only [chartStep, hty] using chartAdd_nodup_month _ _ _ _ h
      | expense => simpa only [chartStep, hty] using chartAdd_nodup_month _ _ _ _ h

theorem chartLookup_some_of_mem (r : ChartRow) (L : List ChartRow)
    (hnd : (L.map ChartRow.month).Nodup) (h : r ∈ L) :
    chartLookup r.month L = some (r.income, r.expenses) := by
  induction L with
  | nil => cases h
  | cons a rest ih =>
      rw [List.map_cons, List.nodup_cons] at hnd
      rcases List.mem_cons.mp h with rfl | h2
      · simp [chartLookup]
      · have hne : a.month ≠ r.month := by
          intro he
          exact hnd.1 (he ▸ List.mem_map_of_mem ChartRow.month h2)
        rw [chartLookup, if_neg hne]
        exact ih hnd.2 h2

theorem mem_of_chartLookup_some {label : String} {i e : Int} {L : List ChartRow}
    (h : chartLookup label L = some (i, e)) :
    ({ month := label, income := i, expenses := e } : ChartRow) ∈ L := by
  induction L with
  | nil => cases h
  | cons r rest ih =>
      by_cases hc : r.month = label
      · rw [chartLookup, if_pos hc] at h
        simp only [Option.some.injEq, Prod.mk.injEq] at h
        have hr : ({ month := label, income := i, expenses := e } : ChartRow) = r := by
          cases r
          simp_all
        rw [hr]
        exact List.mem_cons_self r rest
      · rw [chartLookup, if_neg hc] at h
        exact List.mem_cons_of_mem r (ih h)

/-- C8: the dashboard monthly chart buckets ALL transactions of the principal
by the month abbreviation of their date alone (so dates from distinct years
with the same abbreviation share one bucket, and no date window applies): a
row {month, income, expenses} occurs in the chart exactly when some
transaction carries that month label, its income being the sum of raw
amounts of the income transactions with that label and its expenses the sum
of absolute amounts of the expense transactions with that label; month
labels occur at most once in the output list. -/
theorem c8_monthly_chart (txns : List Transaction) (label : String) (i e : Int) :
    (({ month := label, income := i, expenses := e } : ChartRow) ∈ chartData txns
      ↔ (∃ t ∈ txns, t.date.monthAbbrev = label)
        ∧ i = monthIncomeSum txns label ∧ e = monthExpenseSum txns label)
    ∧ ((chartData txns).map ChartRow.month).Nodup := by
  have hnodup : ((chartData txns).map ChartRow.month).Nodup :=
    chartFoldl_nodup_month txns [] (by simp)
  refine ⟨⟨?_, ?_⟩, hnodup⟩
  · intro hmem
    have hlook : chartLookup label (chartData txns) = some (i, e) :=
      chartLookup_some_of_mem { month := label, income := i, expenses := e } _ hnodup hmem
    have hex : ∃ t ∈ txns, t.date.monthAbbrev = label := by
      by_contra hno
      push_neg at hno
      have habs : chartLookup label (chartData txns) = none :=
        chartLookup_foldl_absent label txns [] hno
      rw [habs] at hlook
      cases hlook
    have hpres := chartLookup_foldl_present label txns [] rfl hex
    rw [chartData] at hlook
    rw [hpres] at hlook
    simp only [Option.some.injEq, Prod.mk.injEq] at hlook
    exact ⟨hex, hlook.1.symm, hlook.2.symm⟩
  · rintro ⟨hex, rfl, rfl⟩
    exact mem_of_chartLookup_some (chartLookup_foldl_present label txns [] rfl hex)

theorem chartAdd_income_sum (label : String) (inc exp : Int) (L : List ChartRow) :
    ((chartAdd label inc exp L).map ChartRow.income).sum
      = inc + (L.map ChartRow.income).sum := by
  induction L with
  | nil => simp [chartAdd]
  | cons r rest ih =>
      by_cases h : r.month = label
      · simp only [chartAdd, if_pos h, List.map_cons, List.sum_cons]
        ring
      · simp only [chartAdd, if_neg h, List.map_cons, List.sum_cons, ih]
        ring

theorem chartFoldl_income_sum (txns : List Transaction) :
    ∀ acc : List ChartRow,
    ((txns.foldl chartStep acc).map ChartRow.income).sum
      = (acc.map ChartRow.income).sum + ((txns.filter isIncomeTx).map (fun t => t.amount)).sum := by
  induction txns with
  | nil => intro acc; simp
  | cons t ts ih =>
      intro acc
      rw [List.foldl_cons, ih]
      cases hty : t.type with
      | income =>
          have hf : (t :: ts).filter isIncomeTx = t :: ts.filter isIncomeTx := by
            simp [List.filter_cons, isIncomeTx, hty]
          rw [hf]
          simp only [chartStep, hty, chartAdd_income_sum, List.map_cons, List.sum_cons]
          ring
      | expense =>
          have hf : (t :: ts).filter isIncomeTx = ts.filter isIncomeTx := by
            simp [List.filter_cons, isIncomeTx, hty]
          rw [hf]
          simp only [chartStep, hty, chartAdd_income_sum]
          ring

/-- C10: the incomes of the dashboard monthly chart rows sum to total_income
of the same dashboard summary, with no precondition on amount signs. -/
theorem c10_chart_income_totals (txns : List Transaction) :
    ((chartData txns).map ChartRow.income).sum = (dashboardTotals txns).total_income := by
  rw [chartData, chartFoldl_income_sum txns []]
  simp [dashboardTotals, incomeTotal, sqlSum_getD]

theorem mem_categoryNames {txns : List Transaction} {n : String} :
    n ∈ categoryNames txns
      ↔ ∃ t ∈ txns, t.type = TxType.expense ∧ catName t = some n := by
  rw [categoryNames, List.mem_dedup, List.mem_filterMap]
  constructor
  · rintro ⟨t, ht, hcat⟩
    have hm := List.mem_filter.mp ht
    refine ⟨t, hm.1, ?_, hcat⟩
    have hb := hm.2
    simp only [isExpenseTx, Bool.and_eq_true, decide_eq_true_eq] at hb
    exact hb.1
  · rintro ⟨t, ht, hexp, hcat⟩
    refine ⟨t, List.mem_filter.mpr ⟨ht, ?_⟩, hcat⟩
    have hsome : t.category.isSome = true := by
      cases hc : t.category with
      | none => rw [catName, hc] at hcat; cases hcat
      | some c => rfl
    simp [isExpenseTx, hexp, hsome]

theorem mem_categoryData {txns : List Transaction} {n : String} {v : Int} :
    (n, v) ∈ categoryData txns ↔ n ∈ categoryNames txns ∧ v = categoryValue txns n := by
  rw [categoryData, sortBy_mem]
  constructor
  · intro h
    rcases List.mem_map.mp h with ⟨n2, hn2, heq⟩
    injection heq with h1 h2
    subst h1
    subst h2
    exact ⟨hn2, rfl⟩
  · rintro ⟨hn, rfl⟩
    exact List.mem_map.mpr ⟨n, hn, rfl⟩

theorem categoryValue_eq (txns : List Transaction) (n : String) :
    categoryValue txns n
      = ((txns.filter (fun t => isExpenseTx t && decide (catName t = some n))).map
          (fun t => |t.amount|)).sum := by
  rw [categoryValue, expenseWithCategory, List.filter_filter]
  have hp : ∀ t ∈ txns,
      (decide (catName t = some n) && (isExpenseTx t && t.category.isSome))
        = (isExpenseTx t && decide (catName t = some n)) := by
    intro t _
    cases hc : t.category with
    | none => simp [catName, hc]
    | some c =>
        simp only [catName, hc, Option.map_some, Option.isSome_some, Bool.and_true]
        cases isExpenseTx t <;> cases decide (c.name = n) <;> simp_all
  rw [List.filter_congr hp]

theorem categoryData_value_nonneg {txns : List Transaction} {x : String × Int}
    (h : x ∈ categoryData txns) : 0 ≤ x.2 := by
  obtain ⟨n, v⟩ := x
  rcases mem_categoryData.mp h with ⟨_, rfl⟩
  refine List.sum_nonneg ?_
  intro y hy
  rcases List.mem_map.mp hy with ⟨t, _, rfl⟩
  exact abs_nonneg _

theorem categoryData_keys_nodup (txns : List Transaction) :
    ((categoryData txns).map Prod.fst).Nodup := by
  have hperm := (sortBy_perm valueDescLE
    ((categoryNames txns).map (fun n => (n, categoryValue txns n)))).map Prod.fst
  rw [categoryData]
  refine hperm.nodup_iff.mpr ?_
  have hmm : ((categoryNames txns).map (fun n => (n, categoryValue txns n))).map Prod.fst
      = categoryNames txns := by
    rw [List.map_map]
    exact List.map_id (categoryNames txns)
  rw [hmm]
  exact List.nodup_dedup _

theorem categoryData_sorted (txns : List Transaction) :
    (categoryData txns).Pairwise (fun a b => b.2 ≤ a.2) := by
  have htrans : ∀ x y z : String × Int, valueDescLE x y = true → valueDescLE y z = true →
      valueDescLE x z = true := by
    intro x y z h1 h2
    simp only [valueDescLE, decide_eq_true_eq] at h1 h2 ⊢
    omega
  have htot : ∀ x y : String × Int, valueDescLE x y = true ∨ valueDescLE y x = true := by
    intro x y
    simp only [valueDescLE, decide_eq_true_eq]
    omega
  have hp := sortBy_pairwise valueDescLE htrans htot
    ((categoryNames txns).map (fun n => (n, categoryValue txns n)))
  rw [categoryData]
  exact hp.imp (fun h => by simpa [valueDescLE] using h)

/-- C7: the analytics category breakdown holds one entry per category name
occurring on an expense transaction with a non-null category (and nothing
else), each entry valued by the sum of absolute amounts of the expense
transactions of that category name, and the list is sorted in descending
order of value. -/
theorem c7_category_breakdown (txns : List Transaction) :
    (∀ n v, ((n, v) ∈ categoryData txns
      ↔ (∃ t ∈ txns, t.type = TxType.expense ∧ catName t = some n)
        ∧ v = ((txns.filter (fun t => isExpenseTx t && decide (catName t = some n))).map
            (fun t => |t.amount|)).sum))
    ∧ ((categoryData txns).map Prod.fst).Nodup
    ∧ (categoryData txns).Pairwise (fun a b => b.2 ≤ a.2) := by
  refine ⟨?_, categoryData_keys_nodup txns, categoryData_sorted txns⟩
  intro n v
  rw [mem_categoryData, mem_categoryNames, categoryValue_eq]

theorem categoryData_eq_nil_iff (txns : List Transaction) :
    categoryData txns = [] ↔ ¬ ∃ t ∈ txns, t.type = TxType.expense ∧ catName t ≠ none := by
  constructor
  · intro h
    rintro ⟨t, ht, hexp, hcat⟩
    rcases Option.ne_none_iff_exists.mp hcat with ⟨n, hn⟩
    have hmemn : n ∈ categoryNames txns := mem_categoryNames.mpr ⟨t, ht, hexp, hn.symm⟩
    have : (n, categoryValue txns n) ∈ categoryData txns :=
      mem_categoryData.mpr ⟨hmemn, rfl⟩
    rw [h] at this
    cases this
  · intro h
    rw [List.eq_nil_iff_forall_not_mem]
    rintro ⟨n, v⟩ hmem
    rcases mem_categoryData.mp hmem with ⟨hn, _⟩
    rcases mem_categoryNames.mp hn with ⟨t, ht, hexp, hcat⟩
    exact h ⟨t, ht, hexp, by rw [hcat]; exact Option.some_ne_none n⟩

theorem totalExpensesValue_cons_nonneg (txns : List Transaction) (top : String × Int)
    (rest : List (String × Int)) (h : categoryData txns = top :: rest) :
    totalExpensesValue txns = top.2 + (rest.map Prod.snd).sum
    ∧ 0 ≤ (rest.map Prod.snd).sum := by
  constructor
  · rw [totalExpensesValue, h]
    simp
  · refine List.sum_nonneg ?_
    intro y hy
    rcases List.mem_map.mp hy with ⟨x, hx, rfl⟩
    exact categoryData_value_nonneg (h ▸ List.mem_cons_of_mem top hx)

theorem topCategoryPercent_nil {txns : List Transaction} (h : categoryData txns = []) :
    topCategoryPercent txns = none := by
  rw [topCategoryPercent, h]

theorem topCategoryPercent_cons {txns : List Transaction} {top : String × Int}
    {rest : List (String × Int)} (h : categoryData txns = top :: rest) :
    topCategoryPercent txns
      = if 0 < totalExpensesValue txns then
          some ((top.2 : Rat) / (totalExpensesValue txns : Rat) * 100)
        else none := by
  rw [topCategoryPercent, h]

/-- C5: top_category names the first category-breakdown entry and is null
exactly when no expense transaction with a non-null category exists;
top_category_percent is the first value over the sum of all values times
100, null exactly when the breakdown is empty or its values sum to 0, and
always inside the range 0 to 100 when present. -/
theorem c5_top_category (txns : List Transaction) :
    (∀ top rest, categoryData txns = top :: rest → topCategory txns = some top.1)
    ∧ (topCategory txns = none
        ↔ ¬ ∃ t ∈ txns, t.type = TxType.expense ∧ catName t ≠ none)
    ∧ (topCategoryPercent txns = none
        ↔ categoryData txns = [] ∨ totalExpensesValue txns = 0)
    ∧ (∀ p, topCategoryPercent txns = some p →
        0 ≤ p ∧ p ≤ 100
        ∧ ∃ top rest, categoryData txns = top :: rest
            ∧ p = (top.2 : Rat) / (totalExpensesValue txns : Rat) * 100) := by
  refine ⟨?_, ?_, ?_, ?_⟩
  · intro top rest h
    rw [topCategory, h]
    rfl
  · rw [← categoryData_eq_nil_iff]
    rw [topCategory]
    cases h : categoryData txns <;> simp [h]
  · constructor
    · intro h
      cases hcd : categoryData txns with
      | nil => exact Or.inl rfl
      | cons top rest =>
          rw [topCategoryPercent_cons hcd] at h
          by_cases hpos : 0 < totalExpensesValue txns
          · rw [if_pos hpos] at h; cases h
          · right
            have hle : 0 ≤ totalExpensesValue txns := by
              rw [totalExpensesValue]
              refine List.sum_nonneg ?_
              intro y hy
              rcases List.mem_map.mp hy with ⟨x, hx, rfl⟩
              exact categoryData_value_nonneg hx
            omega
    · intro h
      rcases h with h | h
      · exact topCategoryPercent_nil h
      · cases hcd : categoryData txns with
        | nil => exact topCategoryPercent_nil hcd
        | cons top rest => rw [topCategoryPercent_cons hcd, if_neg (by omega)]
  · intro p hp
    cases hcd : categoryData txns with
    | nil => rw [topCategoryPercent_nil hcd] at hp; cases hp
    | cons top rest =>
        rw [topCategoryPercent_cons hcd] at hp
        by_cases hpos : 0 < totalExpensesValue txns
        · rw [if_pos hpos] at hp
          have hp2 : p = (top.2 : Rat) / (totalExpensesValue txns : Rat) * 100 :=
            (Option.some.inj hp).symm
          have htop0 : 0 ≤ top.2 :=
            categoryData_value_nonneg (hcd ▸ List.mem_cons_self top rest)
          have hsplit := totalExpensesValue_cons_nonneg txns top rest hcd
          have htople : top.2 ≤ totalExpensesValue txns := by omega
          have htotpos : (0 : Rat) < (totalExpensesValue txns : Rat) := by
            exact_mod_cast hpos
          refine ⟨?_, ?_, top, rest, rfl, hp2⟩
          · rw [hp2]
            have h1 : (0 : Rat) ≤ (top.2 : Rat) := by exact_mod_cast htop0
            positivity
          · rw [hp2]
            have hle1 : (top.2 : Rat) / (totalExpensesValue txns : Rat) ≤ 1 := by
              rw [div_le_one htotpos]
              exact_mod_cast htople
            calc (top.2 : Rat) / (totalExpensesValue txns : Rat) * 100
                ≤ 1 * 100 := by
                  apply mul_le_mul_of_nonneg_right hle1
                  norm_num
              _ = 100 := by norm_num
        · rw [if_neg hpos] at hp
          cases hp

/-- C5 witness: on the spec example set the breakdown is a single Food entry
worth 25.50, top_category is Food and top_category_percent is present and
equals 100 percent of the total. -/
theorem c5_top_category_witness :
    categoryData specExampleTxns = [("Food", 2550)]
    ∧ topCategory specExampleTxns = some "Food"
    ∧ topCategoryPercent specExampleTxns
        = some (((2550 : Int) : Rat) / ((2550 : Int) : Rat) * 100)
    ∧ (0 : Rat) ≤ ((2550 : Int) : Rat) / ((2550 : Int) : Rat) * 100
    ∧ ((2550 : Int) : Rat) / ((2550 : Int) : Rat) * 100 ≤ 100 := by
  have hcd : categoryData specExampleTxns = [("Food", 2550)] := by decide
  have hp : topCategoryPercent specExampleTxns
      = some (((2550 : Int) : Rat) / ((2550 : Int) : Rat) * 100) := by
    rw [topCategoryPercent_cons hcd, if_pos (by decide)]
    rfl
  have h5 := (c5_top_category specExampleTxns).2.2.2 _ hp
  exact ⟨hcd, (c5_top_category specExampleTxns).1 ("Food", 2550) [] hcd, hp, h5.1, h5.2.1⟩

theorem recentLE_trans (a b c : Transaction) (h1 : recentLE a b = true)
    (h2 : recentLE b c = true) : recentLE a c = true := by
  simp only [recentLE, decide_eq_true_eq] at h1 h2 ⊢
  omega

theorem recentLE_total (a b : Transaction) : recentLE a b = true ∨ recentLE b a = true := by
  simp only [recentLE, decide_eq_true_eq]
  omega

/-- C9: recent_transactions consists of exactly the 5 transactions greatest
under date-descending then id-descending order (all of them when fewer than
5 exist): the chosen rows together with the leftover rows permute the full
set, every leftover row is strictly below every chosen row in that order
(given database-unique ids), and each chosen row is serialized with the name
of its category when one is present. -/
theorem c9_recent_transactions (txns : List Transaction)
    (h : (txns.map Transaction.id).Nodup) :
    ∃ chosen rest : List Transaction,
      recentTransactions txns = chosen.map serializeTransaction
      ∧ (chosen ++ rest).Perm txns
      ∧ chosen.length = min 5 txns.length
      ∧ (∀ x ∈ chosen, ∀ y ∈ rest,
          y.date.toordinal < x.date.toordinal
          ∨ (y.date.toordinal = x.date.toordinal ∧ y.id < x.id))
      ∧ (∀ t, (serializeTransaction t).category_name = t.category.map (fun c => c.name)) := by
  refine ⟨(sortBy recentLE txns).take 5, (sortBy recentLE txns).drop 5,
    rfl, ?_, ?_, ?_, fun t => rfl⟩
  · rw [List.take_append_drop]
    exact sortBy_perm recentLE txns
  · rw [List.length_take, (sortBy_perm recentLE txns).length_eq]
  · have hp := sortBy_pairwise recentLE recentLE_trans recentLE_total txns
    have hps : ((sortBy recentLE txns).take 5 ++ (sortBy recentLE txns).drop 5).Pairwise
        (fun x y => recentLE x y = true) := by
      rw [List.take_append_drop]
      exact hp
    have hsplit := (List.pairwise_append.mp hps).2.2
    have hnd : ((sortBy recentLE txns).map Transaction.id).Nodup :=
      ((sortBy_perm recentLE txns).map Transaction.id).nodup_iff.mpr h
    have hnd2 : (((sortBy recentLE txns).take 5).map Transaction.id
        ++ ((sortBy recentLE txns).drop 5).map Transaction.id).Nodup := by
      rw [← List.map_append, List.take_append_drop]
      exact hnd
    have hdisj := (List.nodup_append.mp hnd2).2.2
    intro x hx y hy
    have hle := hsplit x hx y hy
    simp only [recentLE, decide_eq_true_eq] at hle
    have hne : x.id ≠ y.id := by
      intro he
      exact hdisj (List.mem_map_of_mem Transaction.id hx)
        (he ▸ List.mem_map_of_mem Transaction.id hy)
    rcases hle with hlt | ⟨heq, hle2⟩
    · exact Or.inl hlt
    · exact Or.inr ⟨heq, lt_of_le_of_ne hle2 (Ne.symm hne)⟩

/-- C9 witness: the theorem applied to the concrete two-transaction example
store, whose ids are distinct. -/
theorem c9_recent_transactions_witness :
    ((specExampleTxns.map Transaction.id).Nodup)
    ∧ ∃ chosen rest : List Transaction,
        recentTransactions specExampleTxns = chosen.map serializeTransaction
        ∧ (chosen ++ rest).Perm specExampleTxns
        ∧ chosen.length = min 5 specExampleTxns.length
        ∧ (∀ x ∈ chosen, ∀ y ∈ rest,
            y.date.toordinal < x.date.toordinal
            ∨ (y.date.toordinal = x.date.toordinal ∧ y.id < x.id))
        ∧ (∀ t, (serializeTransaction t).category_name = t.category.map (fun c => c.name)) :=
  ⟨by decide, c9_recent_transactions specExampleTxns (by decide)⟩

end ExpenseBackend
